import Mathlib

/-!
Verification of the audio utility module of the `ompatel39/om-patel`
text-to-speech front end.  The module (source file `src/unnamed/part_000`)
provides: raw-PCM decoding into a playable audio buffer (`decodeAudioData`),
a hand-rolled WAV container encoder (`audioBufferToWav` / `encodeWAV` /
`interleave` / `floatTo16BitPCM`), a media-format capability probe
(`getSupportedFormats`), and a real-time transcoder (`transcodeToBlob`).

The shallow embedding below models bytes as `Nat` (each `< 256` where it
matters), 16-bit samples as `Int`, and float samples as `ℚ`.  Every float
value that actually arises in the verified code paths (`k / 32768` for an
int16 `k`, and the literals `0.5`, `0.25`, …) is exactly representable in
IEEE-754 binary32/binary64, and every product the code forms
(`k * 32767 / 32768` inside `floatTo16BitPCM`) is exactly representable in
binary64, so rational arithmetic models the platform arithmetic exactly on
these paths; JavaScript's `DataView.setInt16` truncation-toward-zero and
wrap-around (`ToInt16`) are modelled explicitly.
-/

namespace AudioUtils

/-- Error taxonomy of the spec (§7).  `allocationError` stands for the
platform's `NotSupportedError` raised by `AudioContext.createBuffer`. -/
inductive AudioError where
  | malformedInput
  | allocationError
  deriving DecidableEq, Repr

/-- The decoded, channel-separated, normalized representation
(`AudioBuffer` of the Web Audio platform): channel count, sample rate and
one list of float samples per channel. -/
structure AudioBuffer where
  numChannels : Nat
  sampleRate : Nat
  channelData : List (List ℚ)
  deriving DecidableEq, Repr

/-- One little-endian int16 read from two bytes (`Int16Array` view over the
byte buffer): value `lo + 256*hi`, reinterpreted as a signed 16-bit
integer. -/
def bytesToInt16 (lo hi : Nat) : ℤ :=
  let v : Nat := lo % 256 + 256 * (hi % 256)
  if v < 32768 then (v : ℤ) else (v : ℤ) - 65536

/-- Embeds `new Int16Array(data.buffer, data.byteOffset, data.byteLength / 2)`
(src line 35): views the byte list as little-endian int16 values; a trailing
odd byte is dropped (`ToIndex` truncates the fractional length). -/
def toInt16Array (data : List Nat) : List ℤ :=
  (List.range (data.length / 2)).map fun i =>
    bytesToInt16 (data.getD (2 * i) 0) (data.getD (2 * i + 1) 0)

/-- Embeds `decodeAudioData` (src lines 26–48).  `frameCount = dataInt16.length /
numChannels` is a JavaScript float division; the platform `createBuffer`
truncates its length argument and writes past the resulting buffer length
are discarded, so the observable buffer holds exactly
`⌊dataInt16.length / numChannels⌋` frames per channel — `Nat` division
models that.  `createBuffer` raises `NotSupportedError` when the channel
count or frame count is zero (Web Audio spec); the platform's additional
sample-rate range restriction is not modelled, since every verified claim
uses nominal rates.  Sample of channel `c`, frame `i` is
`dataInt16[i*numChannels + c] / 32768.0` (src line 44). -/
def decodeAudioData (data : List Nat) (sampleRate : Nat) (numChannels : Nat) :
    Except AudioError AudioBuffer :=
  let dataInt16 := toInt16Array data
  let frameCount := dataInt16.length / numChannels
  if frameCount = 0 ∨ numChannels = 0 then
    .error .allocationError
  else
    .ok
      { numChannels := numChannels
        sampleRate := sampleRate
        channelData :=
          (List.range numChannels).map fun c =>
            (List.range frameCount).map fun i =>
              ((dataInt16.getD (i * numChannels + c) 0 : ℚ) / 32768) }

/-- Embeds `interleave` (src lines 71–84).  The source loop writes
`[L0,R0,L1,R1,...]` for two equal-length inputs; the only call site
(`audioBufferToWav`) passes the two equal-length channels of one buffer,
and this structural recursion coincides with the loop on that domain. -/
def interleave : List ℚ → List ℚ → List ℚ
  | l :: ls, r :: rs => l :: r :: interleave ls rs
  | _, _ => []

/-- Truncation toward zero of a rational, as performed by JavaScript's
`ToInt16` abstract operation on an in-range value. -/
def truncToInt (q : ℚ) : ℤ :=
  if 0 ≤ q then ⌊q⌋ else -⌊-q⌋

/-- The `ToInt16` wrap-around: reduce modulo 2^16 into `[-32768, 32767]`. -/
def wrapInt16 (n : ℤ) : ℤ :=
  (n + 32768) % 65536 - 32768

/-- The per-sample conversion inside `floatTo16BitPCM` (src lines 137–138):
clamp to `[-1, 1]`, scale by `0x8000` when negative and `0x7FFF` otherwise,
then store with `setInt16` (truncation toward zero, 16-bit wrap). -/
def pcm16 (sample : ℚ) : ℤ :=
  let s := max (-1) (min 1 sample)
  wrapInt16 (if s < 0 then truncToInt (s * 32768) else truncToInt (s * 32767))

/-- Little-endian byte pair of an int16 value (what `setInt16(…, true)`
stores). -/
def int16leBytes (v : ℤ) : List Nat :=
  let u := (v % 65536).toNat
  [u % 256, u / 256]

/-- Embeds `floatTo16BitPCM` (src lines 135–140): successive little-endian int16
samples. -/
def floatTo16BitPCM (input : List ℚ) : List Nat :=
  (input.map fun s => int16leBytes (pcm16 s)).flatten

/-- Little-endian layout of a 32-bit field (`DataView.setUint32(…, true)`);
values are reduced modulo 2^32 by construction of the byte extraction. -/
def u32le (x : Nat) : List Nat :=
  [x % 256, x / 256 % 256, x / 65536 % 256, x / 16777216 % 256]

/-- Little-endian layout of a 16-bit field (`DataView.setUint16(…, true)`). -/
def u16le (x : Nat) : List Nat :=
  [x % 256, x / 256 % 256]

/-- Embeds `writeString` (src lines 129–133): ASCII codes of the four-character
chunk identifiers. -/
def riffBytes : List Nat := [82, 73, 70, 70]

def waveBytes : List Nat := [87, 65, 86, 69]

def fmtBytes : List Nat := [102, 109, 116, 32]

def dataBytes : List Nat := [100, 97, 116, 97]

/-- Embeds `encodeWAV` (src lines 86–127) as the byte list of the produced blob.
`audioBufferToWav` always passes `format = 1` and `bitDepth = 16`; the
`writeFloat32` branch (`format ≠ 1`) is unreachable from it and its IEEE-754
payload is not modelled (empty payload stands in). -/
def encodeWAV (samples : List ℚ) (format : Nat) (sampleRate : Nat)
    (numChannels : Nat) (bitDepth : Nat) : List Nat :=
  let bytesPerSample := bitDepth / 8
  let blockAlign := numChannels * bytesPerSample
  riffBytes ++
  u32le (36 + samples.length * bytesPerSample) ++
  waveBytes ++
  fmtBytes ++
  u32le 16 ++
  u16le format ++
  u16le numChannels ++
  u32le sampleRate ++
  u32le (sampleRate * blockAlign) ++
  u16le blockAlign ++
  u16le bitDepth ++
  dataBytes ++
  u32le (samples.length * bytesPerSample) ++
  (if format = 1 then floatTo16BitPCM samples else [])

/-- The sample stream `audioBufferToWav` feeds to `encodeWAV`
(src lines 61–66): interleaved for exactly two channels, channel 0 alone
otherwise. -/
def wavSamples (buffer : AudioBuffer) : List ℚ :=
  if buffer.numChannels = 2 then
    interleave (buffer.channelData.getD 0 []) (buffer.channelData.getD 1 [])
  else
    buffer.channelData.getD 0 []

/-- Embeds `audioBufferToWav` (src lines 55–69): encode with PCM format 1,
bit depth 16. -/
def audioBufferToWav (buffer : AudioBuffer) : List Nat :=
  encodeWAV (wavSamples buffer) 1 buffer.sampleRate buffer.numChannels 16

/-- Little-endian int16 values of a WAV data payload (for reading the
encoder output back; same reinterpretation as `toInt16Array`). -/
def payloadInt16 (payload : List Nat) : List ℤ :=
  toInt16Array payload

/-- Embeds `AudioFormat` (src lines 150–154). -/
structure AudioFormat where
  label : String
  mimeType : String
  ext : String
  deriving DecidableEq, Repr

/-- The host platform as the probe sees it: whether the `MediaRecorder`
global exists, and its `isTypeSupported` capability predicate. -/
structure Platform where
  hasMediaRecorder : Bool
  isTypeSupported : String → Bool

/-- The unconditional WAV entry (src lines 161–163). -/
def wavFormat : AudioFormat :=
  { label := "WAV (Uncompressed)", mimeType := "audio/wav", ext := "wav" }

/-- The fixed candidate list (src lines 166–171). -/
def candidates : List AudioFormat :=
  [ { label := "MP4 (AAC)", mimeType := "audio/mp4", ext := "mp4" },
    { label := "WebM (Opus)", mimeType := "audio/webm;codecs=opus", ext := "webm" },
    { label := "WebM", mimeType := "audio/webm", ext := "webm" },
    { label := "Ogg (Vorbis)", mimeType := "audio/ogg", ext := "ogg" } ]

/-- Embeds `getSupportedFormats` (src lines 159–187): WAV first; when the
`MediaRecorder` global exists, each supported candidate is appended unless
an entry with its MIME type is already present (`formats.find` check,
src line 179). -/
def getSupportedFormats (p : Platform) : List AudioFormat :=
  let init := [wavFormat]
  if p.hasMediaRecorder then
    candidates.foldl
      (fun formats c =>
        if p.isTypeSupported c.mimeType then
          if (formats.find? fun f => f.mimeType = c.mimeType).isSome then
            formats
          else
            formats ++ [c]
        else
          formats)
      init
  else
    init

/-- The three ways the platform can drive one `transcodeToBlob` call
(src lines 193–241): the `MediaRecorder` constructor rejects the MIME type
and throws synchronously (src line 205); the recorder signals `onerror`
mid-capture (src lines 221–224); or capture ends normally through `onstop`
(src lines 215–219). -/
inductive RecorderBehavior where
  | rejectMime
  | errorEvent
  | stopEvent
  deriving DecidableEq, Repr

inductive TranscodeOutcome where
  | ok
  | unsupportedFormat
  | transcodeError
  deriving DecidableEq, Repr

/-- Observable result of one `transcodeToBlob` call: how it exits, and how
many times `ctx.close()` ran on that path. -/
structure TranscodeTrace where
  outcome : TranscodeOutcome
  ctxCloseCount : Nat
  deriving DecidableEq, Repr

/-- Embeds `transcodeToBlob` (src lines 193–241), path by path.  The context is
created at src line 198, before the recorder; `new MediaRecorder(dest.stream,
\x7b mimeType \x7d)` at src line 205 throws `NotSupportedError` for an
unsupported MIME type before the promise executor installs any handler, and
no `try`/`finally` guards it, so `ctx.close()` never runs on that path.
The `onstop` handler (src line 217) and the `onerror` handler (src line 222)
each call `ctx.close()` exactly once on their paths. -/
def transcodeToBlob (behavior : RecorderBehavior) : TranscodeTrace :=
  match behavior with
  | .rejectMime => { outcome := .unsupportedFormat, ctxCloseCount := 0 }
  | .errorEvent => { outcome := .transcodeError, ctxCloseCount := 1 }
  | .stopEvent => { outcome := .ok, ctxCloseCount := 1 }

/-! ### Spec-side definitions

These follow the wording of `spec.md`, to be compared with the definitions
embedded from the source. -/

/-- Spec §4.1 conversion rule, in the spec's own order: `clamp(sample, -1,
1)`, then scale by `32767` if `≥ 0` else `32768`, with integer
truncation. -/
def specPcm16 (sample : ℚ) : ℤ :=
  let s := max (-1) (min 1 sample)
  if 0 ≤ s then truncToInt (s * 32767) else truncToInt (s * 32768)

/-- The 44-byte header of spec §4.1's table, all multi-byte fields
little-endian: ChunkID "RIFF", ChunkSize `36 + dataSize`, Format "WAVE",
Subchunk1ID "fmt ", Subchunk1Size 16, AudioFormat 1, NumChannels,
SampleRate, ByteRate `= sampleRate * blockAlign`, BlockAlign
`= channels * 2`, BitsPerSample 16, Subchunk2ID "data", Subchunk2Size
`= sampleCount * 2`. -/
def specWavHeader (numChannels : Nat) (sampleRate : Nat) (sampleCount : Nat) :
    List Nat :=
  riffBytes ++
  u32le (36 + sampleCount * 2) ++
  waveBytes ++
  fmtBytes ++
  u32le 16 ++
  u16le 1 ++
  u16le numChannels ++
  u32le sampleRate ++
  u32le (sampleRate * (numChannels * 2)) ++
  u16le (numChannels * 2) ++
  u16le 16 ++
  dataBytes ++
  u32le (sampleCount * 2)

/-- Spec §4.2 read as the candidate mimes are pairwise distinct and differ
from WAV's: WAV first, then the supported candidates in the fixed candidate
order. -/
def specSupportedFormats (p : Platform) : List AudioFormat :=
  wavFormat ::
    candidates.filter fun c => p.hasMediaRecorder && p.isTypeSupported c.mimeType

/-! ### Helper lemmas -/

theorem truncToInt_intCast (n : ℤ) : truncToInt (n : ℚ) = n := by
  unfold truncToInt
  split
  · exact Int.floor_intCast n
  · rw [show (-(n : ℚ)) = ((-n : ℤ) : ℚ) by push_cast; ring, Int.floor_intCast]
    ring

theorem wrapInt16_eq_self (n : ℤ) (h1 : -32768 ≤ n) (h2 : n ≤ 32767) :
    wrapInt16 n = n := by
  unfold wrapInt16
  omega

theorem wrapInt16_bounds (n : ℤ) :
    -32768 ≤ wrapInt16 n ∧ wrapInt16 n ≤ 32767 := by
  unfold wrapInt16
  omega

theorem bytesToInt16_bounds (lo hi : Nat) :
    -32768 ≤ bytesToInt16 lo hi ∧ bytesToInt16 lo hi ≤ 32767 := by
  simp only [bytesToInt16]
  split <;> omega

theorem getD_map_range {α : Type _} (f : Nat → α) (n i : Nat) (d : α) :
    ((List.range n).map f).getD i d = if i < n then f i else d := by
  by_cases h : i < n <;>
    simp [List.getD_eq_getElem?_getD, List.getElem?_map, List.getElem?_range, h,
      List.getElem?_eq_none, Nat.le_of_not_lt]

theorem toInt16Array_length (data : List Nat) :
    (toInt16Array data).length = data.length / 2 := by
  simp [toInt16Array]

theorem toInt16Array_getD_bounds (data : List Nat) (n : Nat) :
    -32768 ≤ (toInt16Array data).getD n 0 ∧ (toInt16Array data).getD n 0 ≤ 32767 := by
  simp only [toInt16Array, getD_map_range]
  split
  · exact bytesToInt16_bounds _ _
  · norm_num

theorem bytesToInt16_int16le (v : ℤ) (h1 : -32768 ≤ v) (h2 : v ≤ 32767) :
    bytesToInt16 ((v % 65536).toNat % 256) ((v % 65536).toNat / 256) = v := by
  simp only [bytesToInt16]
  split <;> omega

theorem toInt16Array_cons (b0 b1 : Nat) (rest : List Nat) :
    toInt16Array (b0 :: b1 :: rest) = bytesToInt16 b0 b1 :: toInt16Array rest := by
  simp only [toInt16Array, List.length_cons]
  have h3 : (rest.length + 1 + 1) / 2 = rest.length / 2 + 1 := by omega
  rw [h3, List.range_succ_eq_map, List.map_cons, List.map_map]
  refine congrArg₂ List.cons ?_ ?_
  · norm_num
  · apply List.map_congr_left
    intro i _
    simp only [Function.comp_apply, Nat.succ_eq_add_one]
    have e1 : 2 * (i + 1) = 2 * i + 1 + 1 := by ring
    rw [e1]
    simp [List.getD_cons_succ]

theorem toInt16Array_int16leBytes_flatten (vs : List ℤ)
    (h : ∀ v ∈ vs, -32768 ≤ v ∧ v ≤ 32767) :
    toInt16Array ((vs.map int16leBytes).flatten) = vs := by
  induction vs with
  | nil => rfl
  | cons v vs ih =>
    have hv := h v (by simp)
    have hrest : ∀ w ∈ vs, -32768 ≤ w ∧ w ≤ 32767 := fun w hw => h w (by simp [hw])
    simp only [List.map_cons, List.flatten_cons, int16leBytes, List.cons_append,
      List.nil_append]
    rw [toInt16Array_cons, bytesToInt16_int16le v hv.1 hv.2, ih hrest]

theorem pcm16_bounds (s : ℚ) : -32768 ≤ pcm16 s ∧ pcm16 s ≤ 32767 := by
  simp only [pcm16]
  exact wrapInt16_bounds _

theorem payloadInt16_floatTo16BitPCM (samples : List ℚ) :
    payloadInt16 (floatTo16BitPCM samples) = samples.map pcm16 := by
  have h : ∀ v ∈ samples.map pcm16, -32768 ≤ v ∧ v ≤ 32767 := by
    intro v hv
    rcases List.mem_map.mp hv with ⟨s, _, rfl⟩
    exact pcm16_bounds s
  have e : floatTo16BitPCM samples = ((samples.map pcm16).map int16leBytes).flatten := by
    unfold floatTo16BitPCM
    rw [List.map_map]
    rfl
  rw [payloadInt16, e, toInt16Array_int16leBytes_flatten _ h]

theorem truncToInt_bounds (q : ℚ) (a b : ℤ) (ha : (a : ℚ) ≤ q) (hb : q ≤ (b : ℚ))
    (ha0 : a ≤ 0) (hb0 : 0 ≤ b) : a ≤ truncToInt q ∧ truncToInt q ≤ b := by
  unfold truncToInt
  split
  · constructor
    · refine le_trans ha0 (Int.le_floor.mpr ?_)
      push_cast
      linarith
    · calc ⌊q⌋ ≤ ⌊(b : ℚ)⌋ := Int.floor_le_floor hb
        _ = b := Int.floor_intCast b
  · rename_i h
    push_neg at h
    constructor
    · have hfa : ⌊-q⌋ ≤ -a := by
        calc ⌊-q⌋ ≤ ⌊((-a : ℤ) : ℚ)⌋ := Int.floor_le_floor (by push_cast; linarith)
          _ = -a := Int.floor_intCast _
      omega
    · have hf0 : 0 ≤ ⌊-q⌋ := Int.le_floor.mpr (by push_cast; linarith)
      omega

theorem pcm16_quantized (k : ℤ) (h1 : -32768 ≤ k) (h2 : k ≤ 32767) :
    pcm16 ((k : ℚ) / 32768) = if 0 < k then k - 1 else k := by
  have hle : ((k : ℚ) / 32768) ≤ 1 := by
    rw [div_le_one (by norm_num : (0 : ℚ) < 32768)]
    exact_mod_cast le_trans h2 (by norm_num)
  have hge : (-1 : ℚ) ≤ (k : ℚ) / 32768 := by
    rw [le_div_iff₀ (by norm_num : (0 : ℚ) < 32768)]
    have hcast : (-32768 : ℚ) ≤ (k : ℚ) := by exact_mod_cast h1
    linarith
  simp only [pcm16]
  rw [min_eq_right hle, max_eq_right hge]
  by_cases hk : (k : ℚ) / 32768 < 0
  · have hkneg : k < 0 := by
      by_contra hc
      push_neg at hc
      have hnn : (0 : ℚ) ≤ (k : ℚ) / 32768 :=
        div_nonneg (by exact_mod_cast hc) (by norm_num)
      linarith
    rw [if_pos hk, div_mul_cancel₀ _ (by norm_num : (32768 : ℚ) ≠ 0),
      truncToInt_intCast, wrapInt16_eq_self k h1 h2, if_neg (by omega)]
  · push_neg at hk
    have hknn : 0 ≤ k := by
      by_contra hc
      push_neg at hc
      have hneg : (k : ℚ) / 32768 < 0 :=
        div_neg_of_neg_of_pos (by exact_mod_cast hc) (by norm_num)
      linarith
    rw [if_neg (not_lt.mpr hk)]
    have he : ((k : ℚ) / 32768) * 32767 = ((k * 32767 : ℤ) : ℚ) / ((32768 : ℕ) : ℚ) := by
      push_cast
      ring
    rw [he]
    have hfl : truncToInt (((k * 32767 : ℤ) : ℚ) / ((32768 : ℕ) : ℚ)) =
        k * 32767 / 32768 := by
      unfold truncToInt
      rw [if_pos (div_nonneg (by push_cast; positivity) (by norm_num)),
        Rat.floor_intCast_div_natCast]
      norm_num
    rw [hfl]
    have hdiv : k * 32767 / 32768 = if 0 < k then k - 1 else k := by
      split <;> omega
    rw [hdiv]
    split <;> exact wrapInt16_eq_self _ (by omega) (by omega)

theorem pcm16_roundtrip_error (k : ℤ) (h1 : -32768 ≤ k) (h2 : k ≤ 32767) :
    |(((pcm16 ((k : ℚ) / 32768)) : ℚ) / 32768 - (k : ℚ) / 32768)| ≤ 1 / 32768 := by
  rw [pcm16_quantized k h1 h2]
  have he : (((if 0 < k then k - 1 else k) : ℤ) : ℚ) / 32768 - (k : ℚ) / 32768 =
      if 0 < k then -(1 / 32768) else 0 := by
    split <;> push_cast <;> ring
  rw [he]
  split
  · rw [abs_neg, abs_of_pos (by norm_num : (0 : ℚ) < 1 / 32768)]
  · simp

theorem decodeAudioData_ok (data : List Nat) (rate numCh : Nat)
    (hCh : 1 ≤ numCh) (hfc : 1 ≤ data.length / 2 / numCh) :
    decodeAudioData data rate numCh = Except.ok
      { numChannels := numCh
        sampleRate := rate
        channelData :=
          (List.range numCh).map fun c =>
            (List.range (data.length / 2 / numCh)).map fun i =>
              (((toInt16Array data).getD (i * numCh + c) 0 : ℚ) / 32768) } := by
  have hlen : (toInt16Array data).length = data.length / 2 := toInt16Array_length data
  simp only [decodeAudioData, hlen]
  rw [if_neg (by omega)]

theorem interleave_mem (x : ℚ) : ∀ l r : List ℚ, x ∈ interleave l r → x ∈ l ∨ x ∈ r
  | [], _ => by simp [interleave]
  | _ :: _, [] => by simp [interleave]
  | a :: ls, b :: rs => by
    intro hmem
    simp only [interleave, List.mem_cons] at hmem
    rcases hmem with h | h | h
    · exact Or.inl (by simp [h])
    · exact Or.inr (by simp [h])
    · rcases interleave_mem x ls rs h with h' | h'
      · exact Or.inl (by simp [h'])
      · exact Or.inr (by simp [h'])

theorem interleave_zip : ∀ l r : List ℚ, l.length = r.length →
    interleave l r = ((l.zip r).map fun p => [p.1, p.2]).flatten
  | [], [] => by intro; rfl
  | [], _ :: _ => by intro h; simp at h
  | _ :: _, [] => by intro h; simp at h
  | a :: ls, b :: rs => by
    intro h
    simp only [List.length_cons, Nat.add_right_cancel_iff] at h
    simp only [interleave, List.zip_cons_cons, List.map_cons, List.flatten_cons,
      List.cons_append, List.nil_append]
    rw [interleave_zip ls rs h]

theorem interleave_length : ∀ l r : List ℚ, l.length = r.length →
    (interleave l r).length = l.length + r.length
  | [], [] => by intro; rfl
  | [], _ :: _ => by intro h; simp at h
  | _ :: _, [] => by intro h; simp at h
  | a :: ls, b :: rs => by
    intro h
    simp only [List.length_cons, Nat.add_right_cancel_iff] at h
    simp only [interleave, List.length_cons, interleave_length ls rs h]
    omega

theorem floatTo16BitPCM_length (input : List ℚ) :
    (floatTo16BitPCM input).length = 2 * input.length := by
  induction input with
  | nil => rfl
  | cons s rest ih =>
    simp only [floatTo16BitPCM, List.map_cons, List.flatten_cons, List.length_append,
      int16leBytes] at ih ⊢
    simp only [List.length_cons, List.length_nil]
    omega

theorem specWavHeader_length (numChannels sampleRate sampleCount : Nat) :
    (specWavHeader numChannels sampleRate sampleCount).length = 44 := by
  simp [specWavHeader, u32le, u16le, riffBytes, waveBytes, fmtBytes, dataBytes]

theorem encodeWAV_pcm (samples : List ℚ) (rate numCh : Nat) :
    encodeWAV samples 1 rate numCh 16 =
      specWavHeader numCh rate samples.length ++ floatTo16BitPCM samples := by
  simp [encodeWAV, specWavHeader, List.append_assoc]

theorem audioBufferToWav_spec (b : AudioBuffer) :
    audioBufferToWav b =
      specWavHeader b.numChannels b.sampleRate (wavSamples b).length ++
        floatTo16BitPCM (wavSamples b) :=
  encodeWAV_pcm (wavSamples b) b.sampleRate b.numChannels

theorem audioBufferToWav_drop44 (b : AudioBuffer) :
    (audioBufferToWav b).drop 44 = floatTo16BitPCM (wavSamples b) := by
  rw [audioBufferToWav_spec b,
    show (44 : Nat) =
      (specWavHeader b.numChannels b.sampleRate (wavSamples b).length).length from
      (specWavHeader_length _ _ _).symm,
    List.drop_left]

theorem wavSamples_decode_form (data : List Nat) (rate numCh : Nat)
    (hCh : 1 ≤ numCh) (hfc : 1 ≤ data.length / 2 / numCh) (buf : AudioBuffer)
    (hbuf : decodeAudioData data rate numCh = Except.ok buf) :
    ∀ s ∈ wavSamples buf, ∃ k : ℤ, -32768 ≤ k ∧ k ≤ 32767 ∧ s = (k : ℚ) / 32768 := by
  rw [decodeAudioData_ok data rate numCh hCh hfc] at hbuf
  injection hbuf with hbuf
  subst hbuf
  intro s hs
  have hchannel : ∀ c : Nat, ∀ x ∈
      (List.range (data.length / 2 / numCh)).map fun i =>
        (((toInt16Array data).getD (i * numCh + c) 0 : ℚ) / 32768),
      ∃ k : ℤ, -32768 ≤ k ∧ k ≤ 32767 ∧ x = (k : ℚ) / 32768 := by
    intro c x hx
    rcases List.mem_map.mp hx with ⟨i, _, rfl⟩
    exact ⟨(toInt16Array data).getD (i * numCh + c) 0,
      (toInt16Array_getD_bounds data _).1, (toInt16Array_getD_bounds data _).2, rfl⟩
  have hgetD : ∀ c : Nat, ∀ x ∈
      (((List.range numCh).map fun c =>
        (List.range (data.length / 2 / numCh)).map fun i =>
          (((toInt16Array data).getD (i * numCh + c) 0 : ℚ) / 32768) : List (List ℚ)).getD c []),
      ∃ k : ℤ, -32768 ≤ k ∧ k ≤ 32767 ∧ x = (k : ℚ) / 32768 := by
    intro c x hx
    rw [getD_map_range] at hx
    by_cases hc : c < numCh
    · rw [if_pos hc] at hx
      exact hchannel c x hx
    · rw [if_neg hc] at hx
      simp at hx
  simp only [wavSamples] at hs
  split at hs
  · rcases interleave_mem s _ _ hs with h | h
    · exact hgetD 0 s h
    · exact hgetD 1 s h
  · exact hgetD 0 s hs

theorem sample_bounds (k : ℤ) (h1 : -32768 ≤ k) (h2 : k ≤ 32767) :
    (-1 : ℚ) ≤ (k : ℚ) / 32768 ∧ (k : ℚ) / 32768 ≤ 99997 / 100000 := by
  constructor
  · rw [le_div_iff₀ (by norm_num : (0 : ℚ) < 32768)]
    have hc : (-32768 : ℚ) ≤ (k : ℚ) := by exact_mod_cast h1
    linarith
  · rw [div_le_iff₀ (by norm_num : (0 : ℚ) < 32768)]
    have hc : (k : ℚ) ≤ 32767 := by exact_mod_cast h2
    linarith

theorem roundtrip_per_sample (samples : List ℚ)
    (hform : ∀ s ∈ samples, ∃ k : ℤ, -32768 ≤ k ∧ k ≤ 32767 ∧ s = (k : ℚ) / 32768)
    (j : Nat) (hj : j < samples.length) :
    |(((samples.map pcm16).getD j 0 : ℤ) : ℚ) / 32768 - samples.getD j 0| ≤ 1 / 32768 := by
  have hmem : samples.getD j 0 ∈ samples := by
    rw [List.getD_eq_getElem _ _ hj]
    exact List.getElem_mem _
  rcases hform _ hmem with ⟨k, hk1, hk2, hkeq⟩
  have hmap : (samples.map pcm16).getD j 0 = pcm16 (samples.getD j 0) := by
    rw [List.getD_eq_getElem _ _ (by simpa using hj), List.getD_eq_getElem _ _ hj,
      List.getElem_map]
  rw [hmap, hkeq]
  exact pcm16_roundtrip_error k hk1 hk2

theorem pcm16_val (k : ℤ) (q : ℚ) (h1 : -32768 ≤ k) (h2 : k ≤ 32767)
    (hq : q = (k : ℚ) / 32768) (v : ℤ) (hv : v = if 0 < k then k - 1 else k) :
    pcm16 q = v := by
  rw [hq, pcm16_quantized k h1 h2, ← hv]

/-! ### Claim theorems -/

/-- C1: the claim states that `transcodeToBlob` releases its audio context
exactly once on every exit path, in particular on the unsupported-MIME-type
failure.  The code does not: the `MediaRecorder` constructor throws before
any handler that would call `ctx.close()` is installed, and nothing guards
the already-created context, so on that path the close count is 0 (a
dangling context), while the mid-capture-error and normal paths do close it
exactly once. -/
theorem c1_transcode_context_release :
    (transcodeToBlob RecorderBehavior.rejectMime).outcome =
        TranscodeOutcome.unsupportedFormat ∧
    (transcodeToBlob RecorderBehavior.rejectMime).ctxCloseCount = 0 ∧
    (transcodeToBlob RecorderBehavior.errorEvent).ctxCloseCount = 1 ∧
    (transcodeToBlob RecorderBehavior.stopEvent).ctxCloseCount = 1 :=
  ⟨rfl, rfl, rfl, rfl⟩

/-- C4: the claim states that a zero (or negative) computed frame count
fails with `MalformedInputError`.  The code performs no such validation: a
zero-length byte array flows into the platform `createBuffer` with frame
count 0, which fails with the platform allocation error
(`NotSupportedError`), not `MalformedInputError`. -/
theorem c4_zero_length_decode :
    decodeAudioData [] 24000 1 = Except.error AudioError.allocationError ∧
    decodeAudioData [] 24000 1 ≠ Except.error AudioError.malformedInput := by
  refine ⟨rfl, ?_⟩
  intro h
  have h2 := (show decodeAudioData [] 24000 1 =
    Except.error AudioError.allocationError from rfl).symm.trans h
  injection h2 with h3
  exact AudioError.noConfusion h3

/-- C2 counterexample: for the single int16 sample `1` (bytes `[1, 0]`),
the constructed float sample is `1/32768`, the re-encoded PCM value is `0`,
and the re-decoded difference is exactly `1/32768` — not strictly less than
`1/32768` as the claim demands. -/
theorem c2_counterexample :
    decodeAudioData [1, 0] 24000 1 = Except.ok ⟨1, 24000, [[1 / 32768]]⟩ ∧
    payloadInt16 ((audioBufferToWav ⟨1, 24000, [[1 / 32768]]⟩).drop 44) = [0] ∧
    ¬ |((0 : ℤ) : ℚ) / 32768 - 1 / 32768| < 1 / 32768 := by
  refine ⟨rfl, ?_, ?_⟩
  · rw [audioBufferToWav_drop44, payloadInt16_floatTo16BitPCM,
      show wavSamples ⟨1, 24000, [[1 / 32768]]⟩ = [1 / 32768] from rfl,
      List.map_cons, List.map_nil,
      pcm16_val 1 _ (by norm_num) (by norm_num) (by norm_num) 0 (by norm_num)]
  · have he : ((0 : ℤ) : ℚ) / 32768 - 1 / 32768 = -(1 / 32768) := by norm_num
    rw [he, abs_neg, abs_of_pos (by norm_num : (0 : ℚ) < 1 / 32768)]
    exact lt_irrefl _

/-- C2 (amended): for every int16 PCM byte stream with `frames ≥ 1` whole
frames and `numCh ≥ 1` channels, encoding the decoded buffer yields exactly
the §4.1 header followed by the PCM payload, the payload re-decodes to
exactly the converted int16 values, and each re-decoded sample differs from
the constructed float sample by at most (not strictly less than) `1/32768`. -/
theorem c2_wav_roundtrip (data : List Nat) (rate numCh frames : Nat)
    (hCh : 1 ≤ numCh) (hframes : 1 ≤ frames)
    (hlen : data.length = 2 * frames * numCh) :
    ∃ buf : AudioBuffer,
      decodeAudioData data rate numCh = Except.ok buf ∧
      audioBufferToWav buf =
        specWavHeader numCh rate (wavSamples buf).length ++
          floatTo16BitPCM (wavSamples buf) ∧
      payloadInt16 (floatTo16BitPCM (wavSamples buf)) = (wavSamples buf).map pcm16 ∧
      ∀ j, j < (wavSamples buf).length →
        |((payloadInt16 (floatTo16BitPCM (wavSamples buf))).getD j 0 : ℚ) / 32768 -
            (wavSamples buf).getD j 0| ≤ 1 / 32768 := by
  have hfc : 1 ≤ data.length / 2 / numCh := by
    rw [hlen, show 2 * frames * numCh = 2 * (frames * numCh) by ring,
      Nat.mul_div_cancel_left _ (by norm_num : 0 < 2),
      Nat.mul_div_cancel _ (by omega : 0 < numCh)]
    exact hframes
  have hdec := decodeAudioData_ok data rate numCh hCh hfc
  refine ⟨_, hdec, audioBufferToWav_spec _, payloadInt16_floatTo16BitPCM _, ?_⟩
  intro j hj
  rw [payloadInt16_floatTo16BitPCM]
  exact roundtrip_per_sample _
    (wavSamples_decode_form data rate numCh hCh hfc _ hdec) j hj

/-- C2 witness: the round-trip theorem applied to the one-frame mono stream
`[1, 0]` at 24000 Hz. -/
theorem c2_wav_roundtrip_witness :
    ∃ buf : AudioBuffer,
      decodeAudioData [1, 0] 24000 1 = Except.ok buf ∧
      audioBufferToWav buf =
        specWavHeader 1 24000 (wavSamples buf).length ++
          floatTo16BitPCM (wavSamples buf) ∧
      payloadInt16 (floatTo16BitPCM (wavSamples buf)) = (wavSamples buf).map pcm16 ∧
      ∀ j, j < (wavSamples buf).length →
        |((payloadInt16 (floatTo16BitPCM (wavSamples buf))).getD j 0 : ℚ) / 32768 -
            (wavSamples buf).getD j 0| ≤ 1 / 32768 :=
  c2_wav_roundtrip [1, 0] 24000 1 1 (by norm_num) (by norm_num) (by norm_num)

/-- C3 counterexample: decoding bytes `[0x00,0x80,0xFF,0x7F]` (int16 samples
-32768 and 32767) and re-encoding does NOT reproduce 32767: the positive
extreme maps to `(32767/32768)*32767` which truncates to 32766. -/
theorem c3_counterexample :
    decodeAudioData [0, 128, 255, 127] 24000 1 =
      Except.ok ⟨1, 24000, [[-1, 32767 / 32768]]⟩ ∧
    payloadInt16 ((audioBufferToWav ⟨1, 24000, [[-1, 32767 / 32768]]⟩).drop 44) ≠
      [-32768, 32767] := by
  constructor
  · rw [decodeAudioData_ok [0, 128, 255, 127] 24000 1 (by norm_num) (by norm_num)]
    norm_num [toInt16Array, bytesToInt16, List.range_succ, List.getD_cons_zero,
      List.getD_cons_succ]
  · rw [audioBufferToWav_drop44, payloadInt16_floatTo16BitPCM,
      show wavSamples ⟨1, 24000, [[-1, 32767 / 32768]]⟩ = [-1, 32767 / 32768] from rfl,
      List.map_cons, List.map_cons, List.map_nil,
      pcm16_val (-32768) _ (by norm_num) (by norm_num) (by norm_num) (-32768) (by norm_num),
      pcm16_val 32767 _ (by norm_num) (by norm_num) (by norm_num) 32766 (by norm_num)]
    decide

/-- C3 (amended): bytes `[0x00,0x80,0xFF,0x7F]` decode to the 2-frame mono
buffer `[-1, 32767/32768]` (≈ [-1.0, 0.99997]); re-encoding reproduces
-32768 exactly but maps the positive extreme to 32766, one quantization
step below 32767. -/
theorem c3_extreme_drift :
    decodeAudioData [0, 128, 255, 127] 24000 1 =
      Except.ok ⟨1, 24000, [[-1, 32767 / 32768]]⟩ ∧
    payloadInt16 ((audioBufferToWav ⟨1, 24000, [[-1, 32767 / 32768]]⟩).drop 44) =
      [-32768, 32766] := by
  constructor
  · rw [decodeAudioData_ok [0, 128, 255, 127] 24000 1 (by norm_num) (by norm_num)]
    norm_num [toInt16Array, bytesToInt16, List.range_succ, List.getD_cons_zero,
      List.getD_cons_succ]
  · rw [audioBufferToWav_drop44, payloadInt16_floatTo16BitPCM,
      show wavSamples ⟨1, 24000, [[-1, 32767 / 32768]]⟩ = [-1, 32767 / 32768] from rfl,
      List.map_cons, List.map_cons, List.map_nil,
      pcm16_val (-32768) _ (by norm_num) (by norm_num) (by norm_num) (-32768) (by norm_num),
      pcm16_val 32767 _ (by norm_num) (by norm_num) (by norm_num) 32766 (by norm_num)]

/-- C5: the float-to-PCM16 conversion follows exactly the spec's rule
(clamp to [-1,1], scale by 32767 when ≥ 0 and by 32768 when < 0, truncate
toward zero), and the stereo buffer `L=[0.5,-0.5]`, `R=[0.25,-0.25]`
encodes to the interleaved PCM16 payload `[16383, 8191, -16384, -8192]`. -/
theorem c5_pcm_scale_rule :
    (∀ s : ℚ, pcm16 s = specPcm16 s) ∧
    ∀ rate : Nat,
      payloadInt16 ((audioBufferToWav
          ⟨2, rate, [[1 / 2, -(1 / 2)], [1 / 4, -(1 / 4)]]⟩).drop 44) =
        [16383, 8191, -16384, -8192] := by
  constructor
  · intro s
    have ht1 : (-1 : ℚ) ≤ max (-1) (min 1 s) := le_max_left _ _
    have ht2 : max (-1) (min 1 s) ≤ 1 := max_le (by norm_num) (min_le_left _ _)
    simp only [pcm16, specPcm16]
    by_cases h : max (-1) (min 1 s) < 0
    · rw [if_pos h, if_neg (not_le.mpr h)]
      have hb := truncToInt_bounds (max (-1) (min 1 s) * 32768) (-32768) 32767
        (by push_cast; linarith) (by push_cast; linarith) (by norm_num) (by norm_num)
      exact wrapInt16_eq_self _ hb.1 hb.2
    · rw [if_neg h, if_pos (not_lt.mp h)]
      push_neg at h
      have hb := truncToInt_bounds (max (-1) (min 1 s) * 32767) (-32768) 32767
        (by push_cast; linarith) (by push_cast; linarith) (by norm_num) (by norm_num)
      exact wrapInt16_eq_self _ hb.1 hb.2
  · intro rate
    rw [audioBufferToWav_drop44, payloadInt16_floatTo16BitPCM,
      show wavSamples ⟨2, rate, [[1 / 2, -(1 / 2)], [1 / 4, -(1 / 4)]]⟩ =
        [1 / 2, 1 / 4, -(1 / 2), -(1 / 4)] from rfl,
      List.map_cons, List.map_cons, List.map_cons, List.map_cons, List.map_nil,
      pcm16_val 16384 _ (by norm_num) (by norm_num) (by norm_num) 16383 (by norm_num),
      pcm16_val 8192 _ (by norm_num) (by norm_num) (by norm_num) 8191 (by norm_num),
      pcm16_val (-16384) _ (by norm_num) (by norm_num) (by norm_num) (-16384) (by norm_num),
      pcm16_val (-8192) _ (by norm_num) (by norm_num) (by norm_num) (-8192) (by norm_num)]

/-- C5 witness: the scale rule evaluated at the sample 1/2 and at a fixed
sample rate. -/
theorem c5_witness :
    pcm16 (1 / 2 : ℚ) = specPcm16 (1 / 2 : ℚ) ∧
    payloadInt16 ((audioBufferToWav
        ⟨2, 24000, [[1 / 2, -(1 / 2)], [1 / 4, -(1 / 4)]]⟩).drop 44) =
      [16383, 8191, -16384, -8192] :=
  ⟨c5_pcm_scale_rule.1 _, c5_pcm_scale_rule.2 24000⟩

/-- C6: `audioBufferToWav` always emits exactly the §4.1 header (all fields
little-endian, ByteRate = sampleRate × blockAlign, BlockAlign = channels × 2,
Subchunk2Size = sampleCount × 2) followed by the PCM payload, and for a mono
buffer of frame count F the encoded byte length is exactly 44 + F*2. -/
theorem c6_wav_header_determinism :
    (∀ b : AudioBuffer, audioBufferToWav b =
      specWavHeader b.numChannels b.sampleRate (wavSamples b).length ++
        floatTo16BitPCM (wavSamples b)) ∧
    ∀ b : AudioBuffer, ∀ frames : Nat, b.numChannels = 1 →
      (b.channelData.getD 0 []).length = frames →
      (audioBufferToWav b).length = 44 + frames * 2 := by
  refine ⟨audioBufferToWav_spec, ?_⟩
  intro b frames h1 h2
  rw [audioBufferToWav_spec b, List.length_append, specWavHeader_length,
    floatTo16BitPCM_length]
  have hw : wavSamples b = b.channelData.getD 0 [] := by
    rw [wavSamples, if_neg (by rw [h1]; norm_num)]
  rw [hw, h2]
  ring

/-- C6 witness: a one-frame mono buffer encodes to 46 = 44 + 1*2 bytes. -/
theorem c6_witness :
    (audioBufferToWav ⟨1, 24000, [[0]]⟩).length = 44 + 1 * 2 :=
  c6_wav_header_determinism.2 ⟨1, 24000, [[0]]⟩ 1 rfl rfl

/-- C7 counterexample: the claim asserts decoding never errors (partial
bytes are silently dropped) for every byte sequence; but the one-byte input
`[5]` truncates to zero frames, and the platform buffer allocation then
fails, so the call is an error. -/
theorem c7_counterexample :
    decodeAudioData [5] 24000 1 = Except.error AudioError.allocationError :=
  rfl

/-- C7 (amended): for every byte sequence containing at least one whole
frame (`⌊byteLength/2/C⌋ ≥ 1`, `C ≥ 1`), decoding succeeds, trailing partial
bytes and frames are silently dropped (frame count `⌊byteLength/2/C⌋`), the
sample of channel c frame i is the little-endian int16 at index `i*C + c`
divided by 32768, and every output sample lies in [-1, 0.99997]. -/
theorem c7_decode_truncation (data : List Nat) (rate numCh : Nat)
    (hCh : 1 ≤ numCh) (hfc : 1 ≤ data.length / 2 / numCh) :
    ∃ buf : AudioBuffer,
      decodeAudioData data rate numCh = Except.ok buf ∧
      buf.numChannels = numCh ∧
      buf.sampleRate = rate ∧
      buf.channelData.length = numCh ∧
      ∀ c, c < numCh →
        (buf.channelData.getD c []).length = data.length / 2 / numCh ∧
        ∀ i, i < data.length / 2 / numCh →
          (buf.channelData.getD c []).getD i 0 =
            (bytesToInt16 (data.getD (2 * (i * numCh + c)) 0)
                (data.getD (2 * (i * numCh + c) + 1) 0) : ℚ) / 32768 ∧
          -1 ≤ (buf.channelData.getD c []).getD i 0 ∧
          (buf.channelData.getD c []).getD i 0 ≤ 99997 / 100000 := by
  refine ⟨_, decodeAudioData_ok data rate numCh hCh hfc, rfl, rfl, by simp, ?_⟩
  intro c hc
  have hch : (((List.range numCh).map fun c =>
      (List.range (data.length / 2 / numCh)).map fun i =>
        (((toInt16Array data).getD (i * numCh + c) 0 : ℚ) / 32768)) :
        List (List ℚ)).getD c [] =
      (List.range (data.length / 2 / numCh)).map fun i =>
        (((toInt16Array data).getD (i * numCh + c) 0 : ℚ) / 32768) := by
    rw [getD_map_range, if_pos hc]
  refine ⟨by rw [hch]; simp, ?_⟩
  intro i hi
  have hidx : i * numCh + c < data.length / 2 := by
    calc i * numCh + c < i * numCh + numCh := by omega
      _ = (i + 1) * numCh := by ring
      _ ≤ (data.length / 2 / numCh) * numCh :=
        Nat.mul_le_mul_right _ (Nat.succ_le_of_lt hi)
      _ ≤ data.length / 2 := Nat.div_mul_le_self _ _
  have hval : (toInt16Array data).getD (i * numCh + c) 0 =
      bytesToInt16 (data.getD (2 * (i * numCh + c)) 0)
        (data.getD (2 * (i * numCh + c) + 1) 0) := by
    simp only [toInt16Array]
    rw [getD_map_range, if_pos hidx]
  have hsample : ((((List.range numCh).map fun c =>
      (List.range (data.length / 2 / numCh)).map fun i =>
        (((toInt16Array data).getD (i * numCh + c) 0 : ℚ) / 32768)) :
        List (List ℚ)).getD c []).getD i 0 =
      ((toInt16Array data).getD (i * numCh + c) 0 : ℚ) / 32768 := by
    rw [hch, getD_map_range, if_pos hi]
  have hb := toInt16Array_getD_bounds data (i * numCh + c)
  have hs := sample_bounds _ hb.1 hb.2
  exact ⟨by rw [hsample, hval], by rw [hsample]; exact hs.1, by rw [hsample]; exact hs.2⟩

/-- C7 witness: the truncation theorem applied to the 5-byte stereo stream
`[1,0,2,0,3]`, which drops the trailing byte and the trailing partial frame
and keeps one frame. -/
theorem c7_witness :
    ∃ buf : AudioBuffer,
      decodeAudioData [1, 0, 2, 0, 3] 24000 2 = Except.ok buf ∧
      buf.numChannels = 2 ∧
      buf.sampleRate = 24000 ∧
      buf.channelData.length = 2 ∧
      ∀ c, c < 2 →
        (buf.channelData.getD c []).length = [1, 0, 2, 0, 3].length / 2 / 2 ∧
        ∀ i, i < [1, 0, 2, 0, 3].length / 2 / 2 →
          (buf.channelData.getD c []).getD i 0 =
            (bytesToInt16 ([1, 0, 2, 0, 3].getD (2 * (i * 2 + c)) 0)
                ([1, 0, 2, 0, 3].getD (2 * (i * 2 + c) + 1) 0) : ℚ) / 32768 ∧
          -1 ≤ (buf.channelData.getD c []).getD i 0 ∧
          (buf.channelData.getD c []).getD i 0 ≤ 99997 / 100000 :=
  c7_decode_truncation [1, 0, 2, 0, 3] 24000 2 (by norm_num) (by norm_num)

/-- C8: for two equal-length channels `interleave` produces the alternating
stream `[L0,R0,L1,R1,...]`; `audioBufferToWav` uses it exactly when the
channel count is 2, and for any other channel count encodes channel 0 alone
(mono passthrough, no error — the encoder is total). -/
theorem c8_channel_layout :
    (∀ l r : List ℚ, l.length = r.length →
      interleave l r = ((l.zip r).map fun p => [p.1, p.2]).flatten) ∧
    (∀ b : AudioBuffer, b.numChannels = 2 →
      wavSamples b = interleave (b.channelData.getD 0 []) (b.channelData.getD 1 [])) ∧
    ∀ b : AudioBuffer, b.numChannels ≠ 2 →
      wavSamples b = b.channelData.getD 0 [] := by
  refine ⟨interleave_zip, ?_, ?_⟩
  · intro b h
    rw [wavSamples, if_pos h]
  · intro b h
    rw [wavSamples, if_neg h]

/-- C8 witness: the layout theorem applied to the stereo pair
`L=[0.5,-0.5]`, `R=[0.25,-0.25]` and to a 3-channel buffer. -/
theorem c8_witness :
    interleave [(1 : ℚ) / 2, -(1 / 2)] [1 / 4, -(1 / 4)] =
      ((([(1 : ℚ) / 2, -(1 / 2)].zip [1 / 4, -(1 / 4)]).map fun p =>
        [p.1, p.2]).flatten) ∧
    wavSamples ⟨3, 24000, [[1], [2], [3]]⟩ = [1] := by
  refine ⟨c8_channel_layout.1 _ _ rfl, ?_⟩
  rw [c8_channel_layout.2.2 ⟨3, 24000, [[1], [2], [3]]⟩ (by norm_num)]
  rfl

/-- C9: for every fixed platform capability set, `getSupportedFormats`
returns WAV as entry zero followed by exactly the supported candidates in
the fixed candidate order (the first-match-wins de-duplication never drops a
supported candidate because the candidate MIME identifiers are pairwise
distinct and differ from WAV's); as a pure function of the platform, two
calls with the same capability set yield the same ordered sequence. -/
theorem c9_supported_formats (p : Platform) :
    getSupportedFormats p = specSupportedFormats p ∧
    (getSupportedFormats p).getD 0 wavFormat = wavFormat := by
  have h : getSupportedFormats p = specSupportedFormats p := by
    rcases p with ⟨hmr, sup⟩
    cases hmr
    · simp [getSupportedFormats, specSupportedFormats, candidates]
    · cases h1 : sup "audio/mp4" <;> cases h2 : sup "audio/webm;codecs=opus" <;>
        cases h3 : sup "audio/webm" <;> cases h4 : sup "audio/ogg" <;>
        simp [getSupportedFormats, specSupportedFormats, candidates, wavFormat,
          h1, h2, h3, h4, List.find?, List.filter]
  refine ⟨h, ?_⟩
  rw [h]
  rfl

/-- C9 witness: the probe theorem evaluated on a platform that reports
every candidate as supported. -/
theorem c9_witness :
    getSupportedFormats ⟨true, fun _ => true⟩ =
      specSupportedFormats ⟨true, fun _ => true⟩ :=
  (c9_supported_formats ⟨true, fun _ => true⟩).1

/-- C10: when the `MediaRecorder` global is undefined, `getSupportedFormats`
does not fail and returns exactly the single WAV descriptor, with every
capability query skipped. -/
theorem c10_no_media_recorder (query : String → Bool) :
    getSupportedFormats ⟨false, query⟩ = [wavFormat] :=
  rfl

/-- C10 witness: a platform without the `MediaRecorder` global yields the
single WAV entry. -/
theorem c10_witness :
    getSupportedFormats ⟨false, fun _ => false⟩ = [wavFormat] :=
  c10_no_media_recorder (fun _ => false)

end AudioUtils
